/-
Verification of the comment/notification subsystem of the `no-more-problems`
tracker (components/comments.py, email_handler.py, database.py) against its
natural-language specification.

The Python source is shallowly embedded: pure functions become Lean functions
on `String` / `List`; the Supabase tables and the Streamlit session are passed
explicitly as values.  Python `dict`s keyed by id are modelled as association
lists in insertion order; Python's stable `sorted` is modelled by insertion
sort; `datetime` values are modelled by a record of calendar fields compared
through a lexicographic integer key.  String operations are restricted to the
ASCII fragment (the repository's usernames, emails and timestamps are ASCII).
-/
import Mathlib

namespace NoMoreProblems

/-! ### Character/string primitives used by the Python code -/

/-- Python regex `\w` (ASCII fragment): letters, digits, underscore. -/
def isWordChar (c : Char) : Bool :=
  c.isAlphanum || c = '_'

/-- Python `str.lower` (ASCII fragment), used by the case-insensitive matches. -/
def lowerStr (s : String) : String :=
  ⟨s.data.map Char.toLower⟩

/-- Python `str.strip()`: drop whitespace from both ends. -/
def pyStrip (s : String) : String :=
  ⟨(s.data.dropWhile Char.isWhitespace).reverse.dropWhile Char.isWhitespace |>.reverse⟩

/-- Boolean "`needle` is a prefix of `hay`" on character lists. -/
def isPrefixB : List Char → List Char → Bool
  | [], _ => true
  | _ :: _, [] => false
  | a :: as, b :: bs => a = b && isPrefixB as bs

/-- Boolean "`needle` occurs as a contiguous substring of `hay`":
Python's `needle in hay` on strings. -/
def isInfixB (needle : List Char) : List Char → Bool
  | [] => isPrefixB needle []
  | b :: bs => isPrefixB needle (b :: bs) || isInfixB needle bs

/-- Python `needle in hay` for strings. -/
def strIn (needle hay : String) : Bool :=
  isInfixB needle.data hay.data

/-! ### Mention Parser (comments.py, `extract_mentions`)

`re.findall(r'@(\w+)', text)` scans left to right; at each `@` it captures the
maximal nonempty run of word characters that follows, and resumes after the
captured run. -/

/-- The tokens captured by `re.findall(r'@(\w+)', text)`, in match order.
Fuel-indexed so the recursion is structural (the scanner advances at least
one character per step, so fuel `cs.length` never runs out). -/
def findMentionsF : Nat → List Char → List String
  | 0, _ => []
  | _ + 1, [] => []
  | f + 1, c :: cs =>
    if c = '@' then
      match cs.takeWhile isWordChar with
      | [] => findMentionsF f cs
      | tc :: tcs => (⟨tc :: tcs⟩ : String) :: findMentionsF f (cs.dropWhile isWordChar)
    else findMentionsF f cs

/-- The tokens captured by `re.findall(r'@(\w+)', text)`, in match order. -/
def findMentions (cs : List Char) : List String :=
  findMentionsF cs.length cs

/-- comments.py `extract_mentions`: `list(set(re.findall(r'@(\w+)', text)))`.
The `set` round-trip deduplicates; the order of a Python `set` is unspecified,
modelled here by `List.dedup`. -/
def extract_mentions (text : String) : List String :=
  (findMentions text.data).dedup

/-! ### Roster and mention validation (comments.py) -/

/-- comments.py `validate_mentions`: for each raw mention, the first roster
user whose lowercase form matches; that roster user's canonical casing is
kept.  Mentions with no roster match are dropped. -/
def validate_mentions (mentions : List String) (roster : List String) : List String :=
  mentions.filterMap fun m => roster.find? fun u => lowerStr u = lowerStr m

/-! ### Email resolution (email_handler.py, `get_user_email`)

`st.secrets["user_emails"]` is a TOML table: a finite username → email map,
modelled as an association list in declaration order (Python dicts iterate in
insertion order). -/

/-- The configured username → email directory. -/
abbrev EmailDir := List (String × String)

/-- Python `username_clean in user_emails` followed by indexing: the value of
the first entry whose key equals the (cleaned) username. -/
def lookupExact (u : String) (dir : EmailDir) : Option String :=
  (dir.find? fun kv => kv.1 = u).map (·.2)

/-- Step 2 of the cascade: first entry whose key matches case-insensitively. -/
def lookupCI (u : String) (dir : EmailDir) : Option String :=
  (dir.find? fun kv => lowerStr kv.1 = lowerStr u).map (·.2)

/-- Step 3 of the cascade: first entry whose lowercase key is a substring of
the lowercase username or vice versa. -/
def lookupSub (u : String) (dir : EmailDir) : Option String :=
  (dir.find? fun kv =>
    strIn (lowerStr kv.1) (lowerStr u) || strIn (lowerStr u) (lowerStr kv.1)).map (·.2)

/-- "Only one casing variant is configured": no two configured usernames
collide case-insensitively (§8 property 3, claim C4). -/
def uniqueLower (dir : EmailDir) : Prop :=
  ∀ k k', k ∈ dir.map Prod.fst → k' ∈ dir.map Prod.fst → lowerStr k = lowerStr k' → k = k'

/-- email_handler.py `get_user_email`: guard against a falsy username, strip
whitespace, then try exact match, case-insensitive match, and substring match
in that order; `none` when every step fails. -/
def get_user_email (username : String) (dir : EmailDir) : Option String :=
  if username = "" then none
  else
    let uc := pyStrip username
    match lookupExact uc dir with
    | some v => some v
    | none =>
      match lookupCI uc dir with
      | some v => some v
      | none => lookupSub uc dir

/-- Modelled from the spec (§4.2 email resolution policy, claim C4): the
three-step cascade applied directly to the given username — exact match,
case-insensitive exact match, case-insensitive substring match in either
direction, first hit wins, `none` when all three fail. -/
def resolveEmailSpec (username : String) (dir : EmailDir) : Option String :=
  match lookupExact username dir with
  | some v => some v
  | none =>
    match lookupCI username dir with
    | some v => some v
    | none => lookupSub username dir

/-! ### Notification Gate (comments.py, `check_notification_conditions`) -/

/-- comments.py `check_notification_conditions`: false for a falsy owner;
false when the owner is the current user; otherwise true iff the owner's
username resolves to an email. -/
def check_notification_conditions (file_owner current_user : String)
    (dir : EmailDir) : Bool :=
  if file_owner = "" then false
  else if file_owner = current_user then false
  else (get_user_email file_owner dir).isSome

/-! ### Mention notification dispatch (comments.py)

`send_mention_notifications` loops over the validated mentions, skips the
commenter, skips users with no resolvable email, and otherwise calls
`send_mention_email_notification`, whose transport call is
`send_email_async(mentioned_user + "@example.com", subject, html)`.
The model records the list of to-addresses handed to the transport. -/

/-- To-addresses dispatched by `send_mention_notifications`, in loop order. -/
def send_mention_notifications (mentions : List String) (commenter : String)
    (dir : EmailDir) : List String :=
  match mentions with
  | [] => []
  | u :: rest =>
    if u = commenter then send_mention_notifications rest commenter dir
    else
      match get_user_email u dir with
      | none => send_mention_notifications rest commenter dir
      | some _ => (u ++ "@example.com") :: send_mention_notifications rest commenter dir

/-- comments.py `send_email_notification` / email_handler.py
`send_partner_comment_notification`: the owner's address is resolved with
`get_user_email`; no email is dispatched when resolution fails, otherwise one
email goes to the resolved address.  Returns the to-address, if any. -/
def send_email_notification (file_owner : String) (dir : EmailDir) : Option String :=
  get_user_email file_owner dir

/-! ### Timestamps (comments.py, `parse_timestamp`)

A stored `created_at` is absent, an ISO-8601 string, or an already-structured
`datetime`.  `datetime` values are modelled by their calendar fields plus the
parsed UTC-offset minutes of an aware value.  Ordering is the field-wise
lexicographic order (the repository's timestamps are UTC, where this agrees
with Python's comparison). -/

/-- Model of a Python `datetime` value (microseconds omitted; the repository
never stores sub-second precision through this path). -/
structure PyDateTime where
  year : Nat
  month : Nat
  day : Nat
  hour : Nat
  minute : Nat
  second : Nat
  tzOffsetMinutes : Option Int
  deriving DecidableEq, Repr

/-- `datetime.min`: year 1, January 1, midnight, naive. -/
def dtMin : PyDateTime := ⟨1, 1, 1, 0, 0, 0, none⟩

/-- Sort key realising the field-wise lexicographic order on `PyDateTime`
(the multipliers strictly bound each field of a calendar-valid datetime). -/
def toKey (d : PyDateTime) : Nat :=
  ((((d.year * 13 + d.month) * 32 + d.day) * 24 + d.hour) * 60 + d.minute) * 60 + d.second

/-- The calendar ranges `datetime` enforces on construction. -/
def ValidDT (d : PyDateTime) : Prop :=
  1 ≤ d.year ∧ 1 ≤ d.month ∧ d.month ≤ 12 ∧ 1 ≤ d.day ∧ d.day ≤ 31 ∧
    d.hour ≤ 23 ∧ d.minute ≤ 59 ∧ d.second ≤ 59

instance (d : PyDateTime) : Decidable (ValidDT d) := by
  unfold ValidDT; infer_instance

/-- A stored timestamp value as `parse_timestamp` receives it. -/
inductive Timestamp where
  | null
  | str (s : String)
  | dt (d : PyDateTime)
  deriving DecidableEq, Repr

/-- `ValidDT` lifted to timestamp values (strings are unconstrained). -/
def ValidTs : Timestamp → Prop
  | .null => True
  | .str _ => True
  | .dt d => ValidDT d

instance (ts : Timestamp) : Decidable (ValidTs ts) := by
  cases ts <;> unfold ValidTs <;> infer_instance

/-- Python `timestamp.replace('Z', '+00:00')`: every occurrence of the
single-character needle is replaced. -/
def replaceZchars : List Char → List Char
  | [] => []
  | c :: cs =>
    if c = 'Z' then '+' :: '0' :: '0' :: ':' :: '0' :: '0' :: replaceZchars cs
    else c :: replaceZchars cs

/-- Python `timestamp.replace('Z', '+00:00')` on strings. -/
def replaceZ (s : String) : String :=
  ⟨replaceZchars s.data⟩

/-- Numeric value of an ASCII digit. -/
def digitVal (c : Char) : Nat := c.toNat - 48

/-- Two mandatory ASCII digits. -/
def parse2 : List Char → Option (Nat × List Char)
  | c1 :: c2 :: rest =>
    if c1.isDigit && c2.isDigit then some (digitVal c1 * 10 + digitVal c2, rest)
    else none
  | _ => none

/-- Four mandatory ASCII digits. -/
def parse4 : List Char → Option (Nat × List Char)
  | c1 :: c2 :: c3 :: c4 :: rest =>
    if c1.isDigit && c2.isDigit && c3.isDigit && c4.isDigit then
      some (((digitVal c1 * 10 + digitVal c2) * 10 + digitVal c3) * 10 + digitVal c4, rest)
    else none
  | _ => none

/-- One mandatory literal character. -/
def expectChar (c : Char) : List Char → Option (List Char)
  | x :: rest => if x = c then some rest else none
  | [] => none

/-- Gregorian leap-year rule, as `datetime` validates the day of month. -/
def isLeap (y : Nat) : Bool :=
  (y % 4 = 0 && !(y % 100 = 0)) || y % 400 = 0

/-- Days in a month, as `datetime` validates the day of month. -/
def daysInMonth (y mo : Nat) : Nat :=
  if mo = 2 then (if isLeap y then 29 else 28)
  else if mo = 4 || mo = 6 || mo = 9 || mo = 11 then 30
  else 31

/-- Offset body `HH:MM` after the sign, as total minutes. -/
def parseTzBody (rest : List Char) : Option Nat :=
  match parse2 rest with
  | none => none
  | some (h, r1) =>
    match expectChar ':' r1 with
    | none => none
    | some r2 =>
      match parse2 r2 with
      | none => none
      | some (m, r3) =>
        if h ≤ 23 ∧ m ≤ 59 ∧ r3 = [] then some (h * 60 + m) else none

/-- Optional trailing UTC offset `±HH:MM`; the empty remainder means naive. -/
def parseTz : List Char → Option (Option Int)
  | [] => some none
  | '+' :: rest => (parseTzBody rest).map fun n => some (n : Int)
  | '-' :: rest => (parseTzBody rest).map fun n => some (-(n : Int))
  | _ => none

/-- Time-of-day portion `HH[:MM[:SS]]` followed by an optional offset, as
`datetime.fromisoformat` accepts it (fractional seconds omitted; the
repository never stores them through this path). -/
def parseTime (cs : List Char) : Option (Nat × Nat × Nat × Option Int) :=
  match parse2 cs with
  | none => none
  | some (hh, r1) =>
    if hh ≥ 24 then none
    else
      match r1 with
      | ':' :: r2 =>
        match parse2 r2 with
        | none => none
        | some (mm, r3) =>
          if mm ≥ 60 then none
          else
            match r3 with
            | ':' :: r4 =>
              match parse2 r4 with
              | none => none
              | some (ss, r5) =>
                if ss ≥ 60 then none
                else (parseTz r5).map fun tz => (hh, mm, ss, tz)
            | r3' => (parseTz r3').map fun tz => (hh, mm, 0, tz)
      | r1' => (parseTz r1').map fun tz => (hh, 0, 0, tz)

/-- `datetime.fromisoformat` (pre-3.11 grammar, the one the repository relies
on — a trailing `Z` is NOT accepted, hence the `replace` in the caller):
`YYYY-MM-DD`, optionally a single separator character and `HH[:MM[:SS]]`,
optionally `±HH:MM`; every field is range-checked. -/
def fromisoformat (s : String) : Option PyDateTime :=
  match parse4 s.data with
  | none => none
  | some (y, r1) =>
    match expectChar '-' r1 with
    | none => none
    | some r2 =>
      match parse2 r2 with
      | none => none
      | some (mo, r3) =>
        match expectChar '-' r3 with
        | none => none
        | some r4 =>
          match parse2 r4 with
          | none => none
          | some (d, r5) =>
            if y = 0 ∨ mo = 0 ∨ mo > 12 ∨ d = 0 ∨ d > daysInMonth y mo then none
            else
              match r5 with
              | [] => some ⟨y, mo, d, 0, 0, 0, none⟩
              | _sep :: r6 =>
                (parseTime r6).map fun t => ⟨y, mo, d, t.1, t.2.1, t.2.2.1, t.2.2.2⟩

/-- comments.py `parse_timestamp`: falsy values map to `datetime.min`; a
string is tried with `Z` replaced by `+00:00`, then verbatim, and falls back
to `datetime.min`; a structured `datetime` passes through. -/
def parse_timestamp (ts : Timestamp) : PyDateTime :=
  match ts with
  | .null => dtMin
  | .str s =>
    if s = "" then dtMin
    else
      match fromisoformat (replaceZ s) with
      | some d => d
      | none =>
        match fromisoformat s with
        | some d => d
        | none => dtMin
  | .dt d => d

/-! ### Comment Store Adapter (database.py)

The `comments` table is a list of rows in insertion order.  `save_comment`
builds its row from `comment_data` WITHOUT the caller's `created_at` (the
column is absent from `db_data`), so the stored `created_at` is the
storage-assigned default, passed here as `dbDefault`; an upsert on an
existing id updates only the supplied columns. -/

/-- A row of the `comments` table. -/
structure StoredComment where
  id : String
  entity_type : String
  entity_id : String
  user_name : String
  text : String
  parent_id : Option String
  user_role : String
  created_at : Timestamp
  deriving DecidableEq, Repr

/-- The `comment_data` dict built by `handle_comment_submission_with_mentions`. -/
structure CommentData where
  entity_type : String
  entity_id : String
  user_name : String
  text : String
  created_at : Timestamp
  parent_id : Option String
  user_role : String
  deriving DecidableEq, Repr

/-- database.py `save_comment`: upsert of the `db_data` row (id, entity_type,
entity_id, user_name, text, parent_id, user_role — note: no `created_at`).
The external store is assumed reachable; the failure branch only reports. -/
def save_comment (comment_id : String) (data : CommentData) (dbDefault : Timestamp)
    (store : List StoredComment) : List StoredComment :=
  let row : StoredComment :=
    ⟨comment_id, data.entity_type, data.entity_id, data.user_name, data.text,
      data.parent_id, data.user_role, dbDefault⟩
  if store.any (·.id == comment_id) then
    store.map fun r => if r.id == comment_id then { row with created_at := r.created_at } else r
  else
    store ++ [row]

/-- database.py `delete_comment`: remove exactly the rows whose id matches;
no cascade of any kind. -/
def delete_comment (comment_id : String) (store : List StoredComment) : List StoredComment :=
  store.filter fun r => r.id != comment_id

/-- A `(comment id, row)` pair of the dict built by
`get_entity_comments_from_db`. -/
abbrev Entry := String × StoredComment

/-- comments.py `get_entity_comments_from_db`: all rows of the entity, as a
dict keyed by id in response order.  The query's `order by created_at` is
dropped from the model: the Thread Builder re-sorts every level itself, and
the claims under proof do not depend on the adapter-level order. -/
def get_entity_comments_from_db (entity_type entity_id : String)
    (store : List StoredComment) : List Entry :=
  (store.filter fun r => r.entity_type == entity_type && r.entity_id == entity_id).map
    fun r => (r.id, r)

/-! ### Owner resolution (comments.py, `get_file_owner_from_entity`) -/

/-- A row of the `problem_files` table (the columns the join selects). -/
structure ProblemFile where
  id : String
  owner : String
  problem_name : String
  deriving DecidableEq, Repr

/-- A row of the `tasks` table; `problem_file_id` is the foreign key the
`tasks → problem_files` join follows (`none` breaks the chain). -/
structure TaskRow where
  id : String
  problem_file_id : Option String
  deriving DecidableEq, Repr

/-- A row of the `subtasks` table; `task_id` is the foreign key the
`subtasks → tasks` join follows (`none` breaks the chain). -/
structure SubtaskRow where
  id : String
  task_id : Option String
  deriving DecidableEq, Repr

/-- The relational backend as the owner-resolution queries see it. -/
structure DB where
  problem_files : List ProblemFile
  tasks : List TaskRow
  subtasks : List SubtaskRow
  deriving Repr

/-- comments.py `get_file_owner_from_entity`: follow entity → (task →)
problem file; `(none, none)` whenever any hop is missing, and for entity
types other than `task`/`subtask`. -/
def get_file_owner_from_entity (db : DB) (entity_type entity_id : String) :
    Option String × Option String :=
  if entity_type = "task" then
    match db.tasks.find? (fun t => t.id == entity_id) with
    | some t =>
      match t.problem_file_id.bind (fun pid => db.problem_files.find? (fun pf => pf.id == pid)) with
      | some pf => (some pf.owner, some pf.problem_name)
      | none => (none, none)
    | none => (none, none)
  else if entity_type = "subtask" then
    match db.subtasks.find? (fun sb => sb.id == entity_id) with
    | some sb =>
      match sb.task_id.bind (fun tid => db.tasks.find? (fun t => t.id == tid)) with
      | some t =>
        match t.problem_file_id.bind (fun pid => db.problem_files.find? (fun pf => pf.id == pid)) with
        | some pf => (some pf.owner, some pf.problem_name)
        | none => (none, none)
      | none => (none, none)
    | none => (none, none)
  else (none, none)

/-- The spec's chain (§4.3 `resolveOwner`, claim C9): the problem file reached
by entity → (task →) problem file, expressed as a composition of the hops;
`none` as soon as a hop is missing. -/
def chainLookupSpec (db : DB) (entity_type entity_id : String) : Option ProblemFile :=
  if entity_type = "task" then
    ((db.tasks.find? (fun t => t.id == entity_id)).bind (·.problem_file_id)).bind
      fun pid => db.problem_files.find? (fun pf => pf.id == pid)
  else if entity_type = "subtask" then
    ((((db.subtasks.find? (fun sb => sb.id == entity_id)).bind (·.task_id)).bind
      (fun tid => db.tasks.find? (fun t => t.id == tid))).bind (·.problem_file_id)).bind
      fun pid => db.problem_files.find? (fun pf => pf.id == pid)
  else none

/-- comments.py `show_comments_section`, reduced to its notification-relevant
decision: a falsy resolved owner shows the "could not determine file owner"
error and returns before any notification logic (`none`); otherwise the
section is rendered with `check_notification_conditions` evaluated
(`some canNotify`). -/
def show_comments_section (db : DB) (entity_type entity_id current_user : String)
    (dir : EmailDir) : Option Bool :=
  match (get_file_owner_from_entity db entity_type entity_id).1 with
  | none => none
  | some o =>
    if o = "" then none
    else some (check_notification_conditions o current_user dir)

/-! ### Thread Builder (comments.py, `display_comments_list`)

The displayed tree is modelled as the flat pre-order listing of
`(comment id, nesting depth)` pairs in on-screen order.  Python's stable
`sorted` is modelled by the stable `List.insertionSort`; recursion through the
reply relation is bounded by fuel `n + 1` for a collection of `n` comments,
which never runs out on the acyclic data the store produces. -/

/-- Sort key of a displayed entry: `parse_timestamp` of its `created_at`. -/
def tsKey (e : Entry) : Nat :=
  toKey (parse_timestamp e.2.created_at)

/-- Ascending `created_at` order (replies). -/
def ascLe (a b : Entry) : Prop :=
  tsKey a ≤ tsKey b

instance : DecidableRel ascLe := fun x y => Nat.decLe (tsKey x) (tsKey y)

/-- Descending `created_at` order (roots, Python `reverse=True`; a stable
sort under this flipped relation keeps tied elements in their original
order, exactly as Python's stable `sorted(…, reverse=True)` does). -/
def descLe (a b : Entry) : Prop :=
  tsKey b ≤ tsKey a

instance : DecidableRel descLe := fun x y => Nat.decLe (tsKey y) (tsKey x)

/-- Python falsiness of a fetched `parent_id` (`None` or `""`): the row is a
root. -/
def isFalsyParent : Option String → Bool
  | none => true
  | some s => s == ""

/-- comments.py `get_replies`: the direct replies of a comment, sorted by
`created_at` ascending. -/
def get_replies (parent_id : String) (all : List Entry) : List Entry :=
  List.insertionSort ascLe (all.filter fun e => e.2.parent_id == some parent_id)

/-- comments.py `display_comment_with_replies`: emit the comment at its
depth, then each direct reply recursively one level deeper. -/
def display_comment_with_replies : Nat → List Entry → Entry → Nat → List (String × Nat)
  | 0, _, _, _ => []
  | fuel + 1, all, e, depth =>
    (e.1, depth) ::
      ((get_replies e.1 all).map fun r =>
        display_comment_with_replies fuel all r (depth + 1)).flatten

/-- comments.py `display_comments_list`: the falsy-parent rows are the roots,
sorted by `created_at` descending; each is displayed with its replies. -/
def display_comments_list (all : List Entry) : List (String × Nat) :=
  let root_comments := all.filter fun e => isFalsyParent e.2.parent_id
  let sorted_comments := List.insertionSort descLe root_comments
  (sorted_comments.map fun e =>
    display_comment_with_replies (all.length + 1) all e 0).flatten

/-- Spec-side reply tree (§4.4, claim C3). -/
inductive CTree where
  | node (id : String) (children : List CTree)
  deriving Repr

/-- Spec-side tree construction (§4.4, claim C3): each comment's direct
replies, sorted ascending by `created_at`, attached recursively.  The fuel
mirrors the code-side recursion bound: an exhausted branch contributes no
node (on the acyclic dict data the store produces, fuel `n + 1` never runs
out). -/
def buildTree : Nat → List Entry → Entry → Option CTree
  | 0, _, _ => none
  | fuel + 1, all, e => some (.node e.1 ((get_replies e.1 all).filterMap (buildTree fuel all)))

/-- Pre-order flattening of a spec-side tree with depths. -/
def flattenTree : CTree → Nat → List (String × Nat)
  | .node i cs, d => (i, d) :: (cs.attach.map fun c => flattenTree c.1 (d + 1)).flatten
decreasing_by
  have := c.2
  simp only [CTree.node.sizeOf_spec]
  calc sizeOf c.1 < sizeOf cs := List.sizeOf_lt_of_mem this
    _ < 1 + sizeOf i + sizeOf cs := by omega

/-- Pre-order flattening, absent trees contributing nothing. -/
def flattenOpt : Option CTree → Nat → List (String × Nat)
  | none, _ => []
  | some t, d => flattenTree t d

/-- Modelled from the spec (§4.4, claim C3): partition into roots and
replies, sort the roots by `created_at` descending, attach each root's reply
tree (replies ascending, recursively), and read the result off in display
order. -/
def threadBuilderSpec (all : List Entry) : List (String × Nat) :=
  let roots := all.filter fun e => isFalsyParent e.2.parent_id
  let sortedRoots := List.insertionSort descLe roots
  (sortedRoots.map fun e => flattenOpt (buildTree (all.length + 1) all e) 0).flatten

/-! ### Submission handler (comments.py,
`handle_comment_submission_with_mentions`)

The model records the persisted store and the to-addresses handed to the
email transport by the owner path and the mention path.  The save succeeds
(store reachable — its failure branch aborts before any notification), and
`st.session_state.current_user` / `user_role` are explicit arguments. -/

/-- Outcome of one comment submission. -/
structure SubmissionResult where
  store : List StoredComment
  ownerEmails : List String
  mentionEmails : List String
  deriving DecidableEq, Repr

/-- comments.py `handle_comment_submission_with_mentions`: extract and
validate mentions, save the comment, send the owner notification when
`can_notify` and the owner and file name are truthy, then send the mention
notifications. -/
def handle_comment_submission_with_mentions (comment_text : String)
    (entity_type entity_id file_owner file_name : String) (can_notify : Bool)
    (parent_id : Option String) (current_user user_role : String)
    (roster : List String) (dir : EmailDir) (createdAt dbDefault : Timestamp)
    (comment_id : String) (store : List StoredComment) : SubmissionResult :=
  let mentions := extract_mentions comment_text
  let valid_mentions := validate_mentions mentions roster
  let data : CommentData :=
    ⟨entity_type, entity_id, current_user, comment_text, createdAt, parent_id, user_role⟩
  let store' := save_comment comment_id data dbDefault store
  let ownerSends :=
    if can_notify && !(file_owner == "") && !(file_name == "") then
      match send_email_notification file_owner dir with
      | some e => [e]
      | none => []
    else []
  let mentionSends := send_mention_notifications valid_mentions current_user dir
  ⟨store', ownerSends, mentionSends⟩

/-- Every to-address handed to the email transport for one submission. -/
def emailsSent (r : SubmissionResult) : List String :=
  r.ownerEmails ++ r.mentionEmails

/-! ### Concrete data for the spec's worked examples -/

/-- A stored comment of entity `("task", "e1")` with second-resolution time
`t`, parent `p`. -/
def exRow (i : String) (p : Option String) (t : Nat) : StoredComment :=
  ⟨i, "task", "e1", "u", "txt", p, "User", .dt ⟨2024, 1, 1, 0, 0, t, none⟩⟩

/-- The spec's Thread Builder example (§8 property 5, claim C3):
A (root, t=2), B (root, t=1), C (parent=A, t=3), D (parent=A, t=5). -/
def exThread : List Entry :=
  [("A", exRow "A" none 2), ("B", exRow "B" none 1),
   ("C", exRow "C" (some "A") 3), ("D", exRow "D" (some "A") 5)]

/-- A root comment with one reply (claim C7). -/
def exParentRow : StoredComment := exRow "p" none 1

/-- The reply of `exParentRow` (claim C7). -/
def exReplyRow : StoredComment := exRow "r" (some "p") 2

/-- A backend with one problem file, a linked and an unlinked task, and a
subtask under the linked task (claim C9). -/
def exDB : DB :=
  ⟨[⟨"pf1", "Owner1", "PN1"⟩], [⟨"t1", some "pf1"⟩, ⟨"t2", none⟩], [⟨"s1", some "t1"⟩]⟩

/-- Directory for the §8 scenario 8 set-up in which the mention target's
configured address coincides with the fixed mention address (claim C1). -/
def c1Dir : EmailDir := [("Alice", "Alice@example.com")]

/-- User roster for the §8 scenario 8 (claim C1). -/
def c1Roster : List String := ["Alice", "Bob"]

/-- The §8 scenario 8 submission: Bob posts "@Alice please review" on a
subtask of a file owned by Alice, with owner-notification eligibility
computed by the Notification Gate against directory `dir` (claim C1). -/
def c1Submission (dir : EmailDir) (comment_id : String) (store : List StoredComment) :
    SubmissionResult :=
  handle_comment_submission_with_mentions "@Alice please review" "subtask" "s1"
    "Alice" "F1" (check_notification_conditions "Alice" "Bob" dir) none "Bob" "User"
    c1Roster dir (.dt ⟨2024, 1, 2, 3, 4, 5, none⟩) (.str "2024-01-02T03:04:06+00:00")
    comment_id store

/-! ## Theorems -/

/-! ### Mention Parser lemmas -/

/-- Every token the fueled scanner emits is a nonempty run of word
characters. -/
theorem findMentionsF_sound (f : Nat) :
    ∀ (cs : List Char), ∀ t ∈ findMentionsF f cs,
      t.data ≠ [] ∧ ∀ c ∈ t.data, isWordChar c = true := by
  induction f with
  | zero =>
    intro cs t ht
    simp [findMentionsF] at ht
  | succ f ih =>
    intro cs t ht
    match cs with
    | [] => simp [findMentionsF] at ht
    | c :: cs =>
      rw [findMentionsF] at ht
      by_cases hc : c = '@'
      · rw [if_pos hc] at ht
        cases htok : cs.takeWhile isWordChar with
        | nil =>
          rw [htok] at ht
          exact ih cs t ht
        | cons tc tcs =>
          rw [htok] at ht
          rcases List.mem_cons.mp ht with h | h
          · subst h
            refine ⟨by simp, ?_⟩
            intro ch hch
            have hmem : ch ∈ cs.takeWhile isWordChar := by rw [htok]; exact hch
            exact List.mem_takeWhile_imp hmem
          · exact ih _ t h
      · rw [if_neg hc] at ht
        exact ih cs t ht

/-- Every token the scanner emits is a nonempty run of word characters. -/
theorem findMentions_sound (cs : List Char) :
    ∀ t ∈ findMentions cs, t.data ≠ [] ∧ ∀ c ∈ t.data, isWordChar c = true :=
  findMentionsF_sound cs.length cs

/-- C10 (claim): `extract_mentions` returns the distinct scanner tokens with
no duplicates, case preserved verbatim; tokens are nonempty all-word-character
runs, so no token contains `@`; an `@` not followed by a word character
yields no token, and `name@host` yields the token `host`. -/
theorem extract_mentions_spec :
    (∀ text : String, (extract_mentions text).Nodup) ∧
    (∀ text : String, ∀ t, t ∈ extract_mentions text ↔ t ∈ findMentions text.data) ∧
    (∀ text : String, ∀ t ∈ extract_mentions text,
      t.data ≠ [] ∧ (∀ c ∈ t.data, isWordChar c = true) ∧ '@' ∉ t.data) ∧
    extract_mentions "no at sign @ here" = [] ∧
    extract_mentions "See name@host now" = ["host"] ∧
    extract_mentions "@Alice and @alice" = ["Alice", "alice"] := by
  refine ⟨fun text => List.nodup_dedup _, fun text t => List.mem_dedup, ?_, ?_, ?_, ?_⟩
  · intro text t ht
    have hm : t ∈ findMentions text.data := List.mem_dedup.mp ht
    obtain ⟨hne, hw⟩ := findMentions_sound text.data t hm
    refine ⟨hne, hw, fun hat => ?_⟩
    have := hw '@' hat
    simp [isWordChar] at this
  · decide
  · decide
  · decide

/-- Witness for C10, at the spec's own email-address example. -/
theorem extract_mentions_spec_witness :
    ("host" : String).data ≠ [] ∧ '@' ∉ ("host" : String).data := by
  have h := extract_mentions_spec.2.2.1 "See name@host now" "host" (by decide)
  exact ⟨h.1, h.2.2⟩

/-! ### Mention notification dispatch -/

/-- The dispatch loop in closed form: the gate filters, the address is the
canonical username plus `@example.com`. -/
theorem send_mention_filter_map (mentions : List String) (commenter : String)
    (dir : EmailDir) :
    send_mention_notifications mentions commenter dir =
      (mentions.filter fun u => u != commenter && (get_user_email u dir).isSome).map
        (fun u => u ++ "@example.com") := by
  induction mentions with
  | nil => rfl
  | cons u rest ih =>
    by_cases h : u = commenter
    · subst h
      simp [send_mention_notifications, ih]
    · cases hg : get_user_email u dir with
      | none => simp [send_mention_notifications, h, hg, ih]
      | some e => simp [send_mention_notifications, h, hg, ih]

/-- C2 (claim): every dispatched mention email goes to the canonical username
concatenated with `"@example.com"`; the directory lookup acts only as a gate
(only `isSome` matters), never as the destination. -/
theorem mention_address_spec :
    (∀ mentions commenter dir,
      send_mention_notifications mentions commenter dir =
        (mentions.filter fun u => u != commenter && (get_user_email u dir).isSome).map
          (fun u => u ++ "@example.com")) ∧
    (∀ mentions commenter (dir dir' : EmailDir),
      (∀ u, (get_user_email u dir).isSome = (get_user_email u dir').isSome) →
      send_mention_notifications mentions commenter dir =
        send_mention_notifications mentions commenter dir') := by
  refine ⟨send_mention_filter_map, ?_⟩
  intro mentions commenter dir dir' h
  rw [send_mention_filter_map, send_mention_filter_map]
  congr 1
  apply List.filter_congr
  intro u _
  rw [h u]

/-- Witness for C2: the gate hypothesis discharged at a concrete directory. -/
theorem mention_address_spec_witness :
    send_mention_notifications ["Alice"] "Bob" c1Dir =
      send_mention_notifications ["Alice"] "Bob" c1Dir :=
  mention_address_spec.2 ["Alice"] "Bob" c1Dir c1Dir fun _ => rfl

/-! ### Notification Gate -/

/-- C5 (claim): for a (nonempty) file owner, owner-notification eligibility
holds iff the owner differs from the comment's author and the owner's
username resolves to an email; when the author is the owner, eligibility is
false regardless of the email configuration. -/
theorem owner_gate_spec :
    (∀ owner author dir, owner ≠ "" →
      (check_notification_conditions owner author dir = true ↔
        (owner ≠ author ∧ (get_user_email owner dir).isSome = true))) ∧
    (∀ owner author dir, owner = author →
      check_notification_conditions owner author dir = false) := by
  constructor
  · intro owner author dir h
    by_cases ha : owner = author <;> simp [check_notification_conditions, h, ha]
  · intro owner author dir h
    subst h
    by_cases h0 : owner = "" <;> simp [check_notification_conditions, h0]

/-- Witness for C5: eligibility true for Bob commenting on Alice's file with
Alice's email configured, false for Bob commenting on his own file. -/
theorem owner_gate_spec_witness :
    check_notification_conditions "Alice" "Bob" c1Dir = true ∧
    check_notification_conditions "Bob" "Bob" c1Dir = false :=
  ⟨(owner_gate_spec.1 "Alice" "Bob" c1Dir (by decide)).mpr ⟨by decide, by decide⟩,
    owner_gate_spec.2 "Bob" "Bob" c1Dir rfl⟩

/-! ### Email resolution cascade -/

/-- Under `uniqueLower`, an exact hit is also the first case-insensitive hit. -/
theorem find?_ci_of_exact {u : String} :
    ∀ {dir : EmailDir}, uniqueLower dir →
      ∀ {kv}, dir.find? (fun x => x.1 = u) = some kv →
        dir.find? (fun x => lowerStr x.1 = lowerStr u) = some kv := by
  intro dir
  induction dir with
  | nil =>
    intro _ kv h
    simp at h
  | cons e rest ih =>
    intro H kv h
    have Hrest : uniqueLower rest := by
      intro k k' hk hk' hl
      exact H k k' (by simp [hk]) (by simp [hk']) hl
    by_cases he : e.1 = u
    · rw [List.find?_cons_of_pos _ (by simp [he])] at h
      rw [List.find?_cons_of_pos _ (by simp [he])]
      exact h
    · rw [List.find?_cons_of_neg _ (by simp [he])] at h
      have hkv : kv.1 = u := by
        have := List.find?_some h
        simpa using this
      have hkvmem : kv ∈ rest := List.mem_of_find?_eq_some h
      by_cases hci : lowerStr e.1 = lowerStr u
      · exfalso
        have hkeys : kv.1 ∈ (e :: rest).map Prod.fst :=
          List.mem_map_of_mem Prod.fst (List.mem_cons_of_mem e hkvmem)
        have : e.1 = kv.1 := by
          apply H e.1 kv.1 (by simp) hkeys
          rw [hkv, hci]
        exact he (this.trans hkv)
      · rw [List.find?_cons_of_neg _ (by simp [hci])]
        exact ih Hrest h

/-- Under `uniqueLower`, the first two cascade steps collapse into the single
case-insensitive lookup, so resolution depends on the username only through
its lowercase form. -/
theorem resolveEmailSpec_ci {u : String} {dir : EmailDir} (H : uniqueLower dir) :
    resolveEmailSpec u dir =
      match dir.find? (fun x => lowerStr x.1 = lowerStr u) with
      | some kv => some kv.2
      | none => lookupSub u dir := by
  unfold resolveEmailSpec lookupExact lookupCI
  cases hex : dir.find? (fun x => x.1 = u) with
  | some kv =>
    rw [find?_ci_of_exact H hex]
    simp
  | none =>
    cases hci : dir.find? (fun x => lowerStr x.1 = lowerStr u) <;> simp [hci]

/-- C4 (claim): on a (whitespace-clean, nonempty) username, `get_user_email`
is exactly the spec's three-step cascade — exact match, case-insensitive
match, substring match in either direction — returning `none` iff all three
steps fail; and when only one casing variant is configured, `Alice` and
`alice` resolve identically. -/
theorem get_user_email_cascade_spec :
    (∀ u dir, pyStrip u = u → u ≠ "" → get_user_email u dir = resolveEmailSpec u dir) ∧
    (∀ u dir, pyStrip u = u → u ≠ "" →
      (get_user_email u dir = none ↔
        (lookupExact u dir = none ∧ lookupCI u dir = none ∧ lookupSub u dir = none))) ∧
    (∀ dir, uniqueLower dir → get_user_email "Alice" dir = get_user_email "alice" dir) := by
  have hmain : ∀ u dir, pyStrip u = u → u ≠ "" →
      get_user_email u dir = resolveEmailSpec u dir := by
    intro u dir h1 h2
    unfold get_user_email resolveEmailSpec
    rw [if_neg h2, h1]
  refine ⟨hmain, ?_, ?_⟩
  · intro u dir h1 h2
    rw [hmain u dir h1 h2]
    unfold resolveEmailSpec
    cases hex : lookupExact u dir with
    | some v => simp [hex]
    | none =>
      cases hci : lookupCI u dir with
      | some v => simp [hex, hci]
      | none => simp [hex, hci]
  · intro dir H
    rw [hmain "Alice" dir (by decide) (by decide), hmain "alice" dir (by decide) (by decide)]
    rw [resolveEmailSpec_ci H, resolveEmailSpec_ci H]
    have hl : lowerStr "Alice" = lowerStr "alice" := by decide
    unfold lookupSub
    rw [hl]

/-- Witness for C4, at the configured directory `[("Alice", …)]`. -/
theorem get_user_email_cascade_spec_witness :
    get_user_email "Alice" c1Dir = resolveEmailSpec "Alice" c1Dir ∧
    get_user_email "Alice" c1Dir = get_user_email "alice" c1Dir := by
  refine ⟨get_user_email_cascade_spec.1 "Alice" c1Dir (by decide) (by decide),
    get_user_email_cascade_spec.2.2 c1Dir ?_⟩
  intro k k' hk hk' _
  simp [c1Dir] at hk hk'
  rw [hk, hk']

/-! ### Timestamp parsing -/

/-- No month has more than 31 days. -/
theorem daysInMonth_le_31 (y mo : Nat) : daysInMonth y mo ≤ 31 := by
  unfold daysInMonth
  split_ifs <;> omega

/-- The time-of-day parser only returns in-range fields. -/
theorem parseTime_valid {cs : List Char} {out : Nat × Nat × Nat × Option Int}
    (h : parseTime cs = some out) :
    out.1 ≤ 23 ∧ out.2.1 ≤ 59 ∧ out.2.2.1 ≤ 59 := by
  unfold parseTime at h
  split at h
  · exact absurd h (by simp)
  · split at h
    · exact absurd h (by simp)
    · split at h
      · split at h
        · exact absurd h (by simp)
        · split at h
          · exact absurd h (by simp)
          · split at h
            · split at h
              · exact absurd h (by simp)
              · split at h
                · exact absurd h (by simp)
                · rcases Option.map_eq_some'.mp h with ⟨tz, _, rfl⟩
                  simp
                  omega
            · rcases Option.map_eq_some'.mp h with ⟨tz, _, rfl⟩
              simp
              omega
      · rcases Option.map_eq_some'.mp h with ⟨tz, _, rfl⟩
        simp
        omega

/-- Every datetime `fromisoformat` produces satisfies the calendar ranges. -/
theorem fromisoformat_valid {s : String} {d : PyDateTime}
    (h : fromisoformat s = some d) : ValidDT d := by
  unfold fromisoformat at h
  cases hp4 : parse4 s.data with
  | none => rw [hp4] at h; simp at h
  | some p1 =>
    obtain ⟨y, r1⟩ := p1
    rw [hp4] at h
    dsimp only at h
    cases he1 : expectChar '-' r1 with
    | none => rw [he1] at h; simp at h
    | some r2 =>
      rw [he1] at h
      dsimp only at h
      cases hpm : parse2 r2 with
      | none => rw [hpm] at h; simp at h
      | some p2 =>
        obtain ⟨mo, r3⟩ := p2
        rw [hpm] at h
        dsimp only at h
        cases he2 : expectChar '-' r3 with
        | none => rw [he2] at h; simp at h
        | some r4 =>
          rw [he2] at h
          dsimp only at h
          cases hpd : parse2 r4 with
          | none => rw [hpd] at h; simp at h
          | some p3 =>
            obtain ⟨dd, r5⟩ := p3
            rw [hpd] at h
            dsimp only at h
            by_cases hrange : y = 0 ∨ mo = 0 ∨ mo > 12 ∨ dd = 0 ∨ dd > daysInMonth y mo
            · rw [if_pos hrange] at h; simp at h
            · rw [if_neg hrange] at h
              have hdays := daysInMonth_le_31 y mo
              cases r5 with
              | nil =>
                dsimp only at h
                rw [Option.some_inj] at h
                subst h
                unfold ValidDT
                dsimp only
                omega
              | cons sep r6 =>
                dsimp only at h
                cases hpt : parseTime r6 with
                | none => rw [hpt] at h; simp at h
                | some t =>
                  rw [hpt] at h
                  simp only [Option.map_some', Option.some_inj] at h
                  subst h
                  have hvt := parseTime_valid hpt
                  unfold ValidDT
                  dsimp only
                  omega

/-- `datetime.min` is the least valid datetime under the sort key. -/
theorem toKey_min_le {d : PyDateTime} (h : ValidDT d) : toKey dtMin ≤ toKey d := by
  unfold ValidDT at h
  unfold toKey dtMin
  simp only
  omega

/-- C8 (claim): `parse_timestamp` is total on stored timestamp values and
follows the cascade — structured passthrough; ISO-8601 with `+00:00`
substituted for `Z`; ISO-8601 verbatim; `datetime.min` when all parsing
fails — so a malformed string such as `"not-a-date"` gets the sentinel and
sorts as the earliest entry. -/
theorem parse_timestamp_cascade_spec :
    (parse_timestamp .null = dtMin) ∧
    (∀ d, parse_timestamp (.dt d) = d) ∧
    (∀ s d, fromisoformat (replaceZ s) = some d → parse_timestamp (.str s) = d) ∧
    (∀ s d, fromisoformat (replaceZ s) = none → fromisoformat s = some d →
      parse_timestamp (.str s) = d) ∧
    (∀ s, fromisoformat (replaceZ s) = none → fromisoformat s = none →
      parse_timestamp (.str s) = dtMin) ∧
    (parse_timestamp (.str "not-a-date") = dtMin) ∧
    (∀ ts, ValidTs ts → toKey dtMin ≤ toKey (parse_timestamp ts)) := by
  refine ⟨rfl, fun d => rfl, ?_, ?_, ?_, by decide, ?_⟩
  · intro s d h
    by_cases hs : s = ""
    · subst hs
      have hz : fromisoformat (replaceZ "") = none := by decide
      rw [hz] at h
      simp at h
    · simp only [parse_timestamp]
      rw [if_neg hs, h]
  · intro s d h1 h2
    by_cases hs : s = ""
    · subst hs
      have hz : fromisoformat "" = none := by decide
      rw [hz] at h2
      simp at h2
    · simp only [parse_timestamp]
      rw [if_neg hs, h1, h2]
  · intro s h1 h2
    by_cases hs : s = ""
    · subst hs
      rfl
    · simp only [parse_timestamp]
      rw [if_neg hs, h1, h2]
  · intro ts hv
    cases ts with
    | null => exact le_refl _
    | dt d => exact toKey_min_le hv
    | str s =>
      simp only [parse_timestamp]
      by_cases hs : s = ""
      · rw [if_pos hs]
      · rw [if_neg hs]
        cases h1 : fromisoformat (replaceZ s) with
        | some d => exact toKey_min_le (fromisoformat_valid h1)
        | none =>
          cases h2 : fromisoformat s with
          | some d => exact toKey_min_le (fromisoformat_valid h2)
          | none => exact le_refl _

/-- Witness for C8: a `Z`-suffixed Supabase timestamp parses through the
substitution step, and the malformed string gets the sentinel key. -/
theorem parse_timestamp_cascade_spec_witness :
    parse_timestamp (.str "2023-05-06T07:08:09Z") = ⟨2023, 5, 6, 7, 8, 9, some 0⟩ ∧
    toKey dtMin ≤ toKey (parse_timestamp (.str "not-a-date")) :=
  ⟨parse_timestamp_cascade_spec.2.2.1 "2023-05-06T07:08:09Z" _ (by decide),
    parse_timestamp_cascade_spec.2.2.2.2.2.2 (.str "not-a-date") trivial⟩

/-! ### Thread Builder -/

/-- Flattening a spec-side node: the node, then its flattened children. -/
theorem flattenTree_node (i : String) (cs : List CTree) (d : Nat) :
    flattenTree (.node i cs) d = (i, d) :: (cs.map (flattenTree · (d + 1))).flatten := by
  rw [flattenTree]
  congr 1
  rw [List.attach_map_val cs (flattenTree · (d + 1))]

/-- Dropped (fuel-exhausted) children contribute nothing on either side. -/
theorem flatten_filterMap_eq (g : Entry → Option CTree) (l : List Entry) (d : Nat) :
    ((l.filterMap g).map (flattenTree · d)).flatten =
      (l.map fun r => flattenOpt (g r) d).flatten := by
  induction l with
  | nil => rfl
  | cons e rest ih =>
    cases hg : g e with
    | none => simp [List.filterMap_cons, hg, flattenOpt, ih]
    | some t => simp [List.filterMap_cons, hg, flattenOpt, ih]

/-- The spec-side tree, flattened, is exactly the code-side display of one
comment with its replies, at every fuel level. -/
theorem buildTree_display (f : Nat) :
    ∀ (all : List Entry) (e : Entry) (d : Nat),
      flattenOpt (buildTree f all e) d = display_comment_with_replies f all e d := by
  induction f with
  | zero => intro all e d; rfl
  | succ f ih =>
    intro all e d
    rw [display_comment_with_replies, buildTree]
    show flattenTree (.node e.1 ((get_replies e.1 all).filterMap (buildTree f all))) d = _
    rw [flattenTree_node, flatten_filterMap_eq]
    simp only [ih]

/-- C3 (claim): the Thread Builder displays the roots (falsy `parent_id`)
sorted by `created_at` descending and, under each comment, its direct replies
sorted ascending, recursively — it coincides with the spec-side tree
construction on every collection, and renders the example collection
{A (root, t=2), B (root, t=1), C (parent=A, t=3), D (parent=A, t=5)} in the
order `[A [C, D], B]`. -/
theorem display_comments_list_spec :
    (∀ all : List Entry, display_comments_list all = threadBuilderSpec all) ∧
    display_comments_list exThread =
      [("A", 0), ("C", 1), ("D", 1), ("B", 0)] := by
  constructor
  · intro all
    unfold display_comments_list threadBuilderSpec
    simp only [buildTree_display]
  · decide

/-! ### Comment Store Adapter -/

/-- C6 (claim): saving a comment with a fresh id and immediately retrieving
its entity's comments returns a record equal to the saved comment in every
caller-supplied field; `created_at`, which `save_comment` does not write, is
the storage-assigned default. -/
theorem save_comment_roundtrip :
    ∀ (store : List StoredComment) (dbDefault : Timestamp) (cid : String)
      (data : CommentData), (∀ r ∈ store, r.id ≠ cid) →
      ∃ row : StoredComment,
        (cid, row) ∈ get_entity_comments_from_db data.entity_type data.entity_id
          (save_comment cid data dbDefault store) ∧
        row.entity_type = data.entity_type ∧ row.entity_id = data.entity_id ∧
        row.user_name = data.user_name ∧ row.text = data.text ∧
        row.parent_id = data.parent_id ∧ row.user_role = data.user_role ∧
        row.created_at = dbDefault := by
  intro store dbDefault cid data hfresh
  refine ⟨⟨cid, data.entity_type, data.entity_id, data.user_name, data.text,
    data.parent_id, data.user_role, dbDefault⟩, ?_, rfl, rfl, rfl, rfl, rfl, rfl, rfl⟩
  have hany : store.any (·.id == cid) = false := by
    rw [List.any_eq_false]
    intro r hr
    simp [hfresh r hr]
  unfold save_comment
  rw [if_neg (by rw [hany]; exact Bool.false_ne_true)]
  unfold get_entity_comments_from_db
  rw [List.filter_append]
  refine List.mem_map.mpr
    ⟨⟨cid, data.entity_type, data.entity_id, data.user_name, data.text,
      data.parent_id, data.user_role, dbDefault⟩, List.mem_append_right _ ?_, rfl⟩
  simp

/-- Witness for C6: round-trip on an empty store at a concrete comment. -/
theorem save_comment_roundtrip_witness :
    ∃ row : StoredComment,
      ("cid1", row) ∈ get_entity_comments_from_db "task" "e1"
        (save_comment "cid1"
          ⟨"task", "e1", "Bob", "hello", .dt ⟨2024, 1, 2, 3, 4, 5, none⟩, none, "User"⟩
          (.str "2024-01-01T00:00:00+00:00") []) ∧
      row.entity_type = "task" ∧ row.entity_id = "e1" ∧
      row.user_name = "Bob" ∧ row.text = "hello" ∧
      row.parent_id = none ∧ row.user_role = "User" ∧
      row.created_at = .str "2024-01-01T00:00:00+00:00" :=
  save_comment_roundtrip [] (.str "2024-01-01T00:00:00+00:00") "cid1"
    ⟨"task", "e1", "Bob", "hello", .dt ⟨2024, 1, 2, 3, 4, 5, none⟩, none, "User"⟩
    (by intro r hr; simp at hr)

/-- C7 counterexample: deleting the parent `p` of reply `r` leaves `r` in the
store (retrievable by id), but the Thread Builder then renders NOTHING — the
orphaned reply is not displayed, contradicting "remain displayable (shown
without their parent)". -/
theorem delete_comment_orphan_cex :
    exReplyRow ∈ delete_comment "p" [exParentRow, exReplyRow] ∧
    display_comments_list (get_entity_comments_from_db "task" "e1"
      (delete_comment "p" [exParentRow, exReplyRow])) = [] := by
  constructor
  · decide
  · decide

/-- C7 (amended): deletion removes exactly the rows with the given id and
does not cascade — every other comment, replies included, remains in the
store — but the Thread Builder omits orphaned replies from the rendered
tree rather than showing them without their parent. -/
theorem delete_comment_frame_spec :
    (∀ (store : List StoredComment) (cid : String) (r : StoredComment),
      r ∈ delete_comment cid store ↔ (r ∈ store ∧ r.id ≠ cid)) ∧
    exReplyRow ∈ delete_comment "p" [exParentRow, exReplyRow] ∧
    display_comments_list (get_entity_comments_from_db "task" "e1"
      (delete_comment "p" [exParentRow, exReplyRow])) = [] := by
  refine ⟨?_, by decide, by decide⟩
  intro store cid r
  unfold delete_comment
  rw [List.mem_filter]
  simp

/-- Witness for C7: the reply row survives the parent's deletion. -/
theorem delete_comment_frame_spec_witness :
    exReplyRow ∈ delete_comment "p" [exParentRow, exReplyRow] :=
  (delete_comment_frame_spec.1 [exParentRow, exReplyRow] "p" exReplyRow).mpr
    ⟨by decide, by decide⟩

/-! ### Owner resolution -/

/-- `get_file_owner_from_entity` is the spec's hop chain: the resolved pair
is read off the chain's problem file, `(none, none)` when the chain breaks. -/
theorem get_file_owner_eq_chain (db : DB) (entity_type entity_id : String) :
    get_file_owner_from_entity db entity_type entity_id =
      match chainLookupSpec db entity_type entity_id with
      | some pf => (some pf.owner, some pf.problem_name)
      | none => (none, none) := by
  unfold get_file_owner_from_entity chainLookupSpec
  by_cases h1 : entity_type = "task"
  · rw [if_pos h1, if_pos h1]
    cases ht : db.tasks.find? (fun t => t.id == entity_id) with
    | none => simp
    | some t =>
      cases hb : t.problem_file_id.bind
          (fun pid => db.problem_files.find? (fun pf => pf.id == pid)) with
      | none => simp [hb]
      | some pf => simp [hb]
  · rw [if_neg h1, if_neg h1]
    by_cases h2 : entity_type = "subtask"
    · rw [if_pos h2, if_pos h2]
      cases hs : db.subtasks.find? (fun sb => sb.id == entity_id) with
      | none => simp
      | some sb =>
        cases hb1 : sb.task_id.bind (fun tid => db.tasks.find? (fun t => t.id == tid)) with
        | none => simp [hb1]
        | some t =>
          cases hb2 : t.problem_file_id.bind
              (fun pid => db.problem_files.find? (fun pf => pf.id == pid)) with
          | none => simp [hb1, hb2]
          | some pf => simp [hb1, hb2]
    · rw [if_neg h2, if_neg h2]

/-- C9 (claim): for entity types `task` and `subtask`, owner resolution
returns the `(owner, file name)` pair reached through entity → (task →)
problem file, and `(none, none)` whenever the chain is broken at any hop; on
that failure the comments section shows the error message and suppresses the
notification logic for the render (`none` outcome). -/
theorem resolve_owner_spec :
    ∀ (db : DB) (entity_type entity_id current_user : String) (dir : EmailDir),
      entity_type = "task" ∨ entity_type = "subtask" →
      (∀ pf, chainLookupSpec db entity_type entity_id = some pf →
        get_file_owner_from_entity db entity_type entity_id =
          (some pf.owner, some pf.problem_name)) ∧
      (chainLookupSpec db entity_type entity_id = none →
        get_file_owner_from_entity db entity_type entity_id = (none, none) ∧
        show_comments_section db entity_type entity_id current_user dir = none) := by
  intro db entity_type entity_id current_user dir _
  constructor
  · intro pf hpf
    rw [get_file_owner_eq_chain, hpf]
  · intro hnone
    have hget : get_file_owner_from_entity db entity_type entity_id = (none, none) := by
      rw [get_file_owner_eq_chain, hnone]
    refine ⟨hget, ?_⟩
    unfold show_comments_section
    rw [hget]

/-- Witness for C9: the intact subtask chain resolves, the broken task chain
yields `(none, none)` and the error render. -/
theorem resolve_owner_spec_witness :
    get_file_owner_from_entity exDB "subtask" "s1" = (some "Owner1", some "PN1") ∧
    get_file_owner_from_entity exDB "task" "t2" = (none, none) ∧
    show_comments_section exDB "task" "t2" "Bob" [] = none := by
  have h1 := (resolve_owner_spec exDB "subtask" "s1" "Bob" [] (Or.inr rfl)).1
    ⟨"pf1", "Owner1", "PN1"⟩ (by decide)
  have h2 := (resolve_owner_spec exDB "task" "t2" "Bob" [] (Or.inl rfl)).2 (by decide)
  exact ⟨h1, h2.1, h2.2⟩

/-! ### The §8 scenario 8 submission -/

/-- C1 counterexample: with Alice's configured address equal to
`Alice@example.com`, the submission dispatches the owner notification AND the
mention notification to that same address — the code performs no
deduplication by resolved email address, so the same person is sent two
emails for the same comment. -/
theorem submission_no_dedup_cex :
    emailsSent (c1Submission c1Dir "cid1" []) =
      ["Alice@example.com", "Alice@example.com"] ∧
    ¬ (emailsSent (c1Submission c1Dir "cid1" [])).Nodup := by
  constructor
  · decide
  · decide

/-- C1 (amended): in the §8 scenario 8 — Bob posts "@Alice please review" on
a subtask of Alice's file, Alice's email configured as `e` — exactly one
comment is persisted, owner-notification eligibility is true, one
mention-notification targets Alice, and exactly two emails are dispatched:
the owner notification to the resolved address `e` and the mention
notification to the fixed address `Alice@example.com`, with no
deduplication between them. -/
theorem c1_submission_spec :
    ∀ (e : String) (store : List StoredComment) (cid : String),
      (∀ r ∈ store, r.id ≠ cid) →
      check_notification_conditions "Alice" "Bob" [("Alice", e)] = true ∧
      (c1Submission [("Alice", e)] cid store).store.length = store.length + 1 ∧
      (c1Submission [("Alice", e)] cid store).ownerEmails = [e] ∧
      (c1Submission [("Alice", e)] cid store).mentionEmails = ["Alice@example.com"] ∧
      (emailsSent (c1Submission [("Alice", e)] cid store)).length = 2 := by
  intro e store cid hfresh
  have hlookup : get_user_email "Alice" [("Alice", e)] = some e := by
    unfold get_user_email
    rw [if_neg (by decide)]
    have hps : pyStrip "Alice" = "Alice" := by decide
    rw [hps]
    unfold lookupExact
    simp
  have hcan : check_notification_conditions "Alice" "Bob" [("Alice", e)] = true := by
    unfold check_notification_conditions
    rw [if_neg (by decide), if_neg (by decide), hlookup]
    rfl
  have hany : store.any (·.id == cid) = false := by
    rw [List.any_eq_false]
    intro r hr
    simp [hfresh r hr]
  have hmentions : extract_mentions "@Alice please review" = ["Alice"] := by decide
  have hvalid : validate_mentions ["Alice"] c1Roster = ["Alice"] := by decide
  have hsend : send_mention_notifications ["Alice"] "Bob" [("Alice", e)] =
      ["Alice@example.com"] := by
    unfold send_mention_notifications
    rw [if_neg (by decide), hlookup]
    rfl
  have hres : c1Submission [("Alice", e)] cid store =
      ⟨save_comment cid
          ⟨"subtask", "s1", "Bob", "@Alice please review",
            .dt ⟨2024, 1, 2, 3, 4, 5, none⟩, none, "User"⟩
          (.str "2024-01-02T03:04:06+00:00") store,
        [e], ["Alice@example.com"]⟩ := by
    unfold c1Submission handle_comment_submission_with_mentions
    dsimp only
    rw [hmentions, hvalid, hsend, hcan]
    unfold send_email_notification
    rw [hlookup]
    rfl
  have hlen : (save_comment cid
      ⟨"subtask", "s1", "Bob", "@Alice please review",
        .dt ⟨2024, 1, 2, 3, 4, 5, none⟩, none, "User"⟩
      (.str "2024-01-02T03:04:06+00:00") store).length = store.length + 1 := by
    unfold save_comment
    rw [if_neg (by rw [hany]; exact Bool.false_ne_true)]
    simp
  refine ⟨hcan, ?_, ?_, ?_, ?_⟩
  · rw [hres]
    exact hlen
  · rw [hres]
  · rw [hres]
  · rw [hres]
    rfl

/-- Witness for C1 (amended), with a resolved owner address distinct from the
mention address: both emails are dispatched, two in total. -/
theorem c1_submission_spec_witness :
    check_notification_conditions "Alice" "Bob" [("Alice", "alice@corp.example")] = true ∧
    (c1Submission [("Alice", "alice@corp.example")] "cid1" []).store.length = 0 + 1 ∧
    (c1Submission [("Alice", "alice@corp.example")] "cid1" []).ownerEmails =
      ["alice@corp.example"] ∧
    (c1Submission [("Alice", "alice@corp.example")] "cid1" []).mentionEmails =
      ["Alice@example.com"] ∧
    (emailsSent (c1Submission [("Alice", "alice@corp.example")] "cid1" [])).length = 2 :=
  c1_submission_spec "alice@corp.example" [] "cid1" (by intro r hr; simp at hr)

end NoMoreProblems
